import Mathlib

/-!
Verification development for the glm-vision extension
(`src/utils.ts`, `src/index.ts`).

The TypeScript source is shallowly embedded: JSON values are an inductive
type, `JSON.parse` is a fuel-based recursive-descent parser, the utility
functions `isImageFile`, `needsVisionProxy`, `extractTextFromPiOutput`
are translated directly, and the subprocess / promise lifecycle of
`analyzeImage` is a step function over an explicit event trace.
-/

/-- JSON values as produced by `JSON.parse`.  Numbers are kept as their
source lexeme: none of the verified code ever interprets a number's
value beyond zero-testing for truthiness. -/
inductive Json where
  | null : Json
  | bool : Bool → Json
  | num : String → Json
  | str : String → Json
  | arr : List Json → Json
  | obj : List (String × Json) → Json

/-- Skip JSON whitespace (space, tab, newline, carriage return). -/
def skipWs : List Char → List Char
  | [] => []
  | c :: r => if c = ' ' ∨ c = '\t' ∨ c = '\n' ∨ c = '\r' then skipWs r else c :: r

/-- Value of a hexadecimal digit. -/
def hexVal (c : Char) : Option Nat :=
  if '0' ≤ c ∧ c ≤ '9' then some (c.toNat - ('0').toNat)
  else if 'a' ≤ c ∧ c ≤ 'f' then some (c.toNat - ('a').toNat + 10)
  else if 'A' ≤ c ∧ c ≤ 'F' then some (c.toNat - ('A').toNat + 10)
  else none

/-- Single-character JSON string escapes. -/
def escChar (e : Char) : Option Char :=
  if e = '"' then some '"'
  else if e = '\\' then some '\\'
  else if e = '/' then some '/'
  else if e = 'b' then some (Char.ofNat 8)
  else if e = 'f' then some (Char.ofNat 12)
  else if e = 'n' then some '\n'
  else if e = 'r' then some '\r'
  else if e = 't' then some '\t'
  else none

/-- Body of a JSON string after the opening quote.  Returns the decoded
characters and the rest of the input after the closing quote.  A `\u`
escape denoting a surrogate code unit (unrepresentable as a Lean `Char`)
is approximated by U+FFFD; no claim depends on such inputs. -/
def parseStringBody : Nat → List Char → Option (List Char × List Char)
  | 0, _ => none
  | _ + 1, [] => none
  | fuel + 1, c :: r =>
    if c = '"' then some ([], r)
    else if c = '\\' then
      match r with
      | [] => none
      | 'u' :: h1 :: h2 :: h3 :: h4 :: r2 =>
        match hexVal h1, hexVal h2, hexVal h3, hexVal h4 with
        | some a, some b, some c2, some d =>
          let n := ((a * 16 + b) * 16 + c2) * 16 + d
          let ch := if n < 55296 ∨ 57344 ≤ n then Char.ofNat n else Char.ofNat 65533
          match parseStringBody fuel r2 with
          | some (tl, rest) => some (ch :: tl, rest)
          | none => none
        | _, _, _, _ => none
      | e :: r2 =>
        match escChar e with
        | some ch =>
          match parseStringBody fuel r2 with
          | some (tl, rest) => some (ch :: tl, rest)
          | none => none
        | none => none
    else if c.toNat < 32 then none
    else
      match parseStringBody fuel r with
      | some (tl, rest) => some (c :: tl, rest)
      | none => none

/-- Longest digit prefix and the remaining input. -/
def spanDigits (cs : List Char) : List Char × List Char :=
  (cs.takeWhile Char.isDigit, cs.dropWhile Char.isDigit)

/-- Integer part of a JSON number: `0`, or a nonzero digit followed by digits. -/
def parseIntPart (cs : List Char) : Option (List Char × List Char) :=
  match cs with
  | [] => none
  | '0' :: r => some (['0'], r)
  | c :: r => if c.isDigit then (let p := spanDigits r; some (c :: p.1, p.2)) else none

/-- Optional fraction part of a JSON number. -/
def parseFracPart (cs : List Char) : Option (List Char × List Char) :=
  match cs with
  | '.' :: r =>
    let p := spanDigits r
    if p.1.isEmpty then none else some ('.' :: p.1, p.2)
  | _ => some ([], cs)

/-- Optional exponent part of a JSON number. -/
def parseExpPart (cs : List Char) : Option (List Char × List Char) :=
  match cs with
  | [] => some ([], [])
  | c :: r =>
    if c = 'e' ∨ c = 'E' then
      let (sg, r2) := match r with
        | '+' :: rr => ((['+'] : List Char), rr)
        | '-' :: rr => ((['-'] : List Char), rr)
        | _ => (([] : List Char), r)
      let p := spanDigits r2
      if p.1.isEmpty then none else some (c :: (sg ++ p.1), p.2)
    else some ([], cs)

/-- A full JSON number lexeme (sign, integer, fraction, exponent). -/
def parseNumberLex (cs : List Char) : Option (List Char × List Char) :=
  let (sgn, cs1) := match cs with
    | '-' :: r => ((['-'] : List Char), r)
    | _ => (([] : List Char), cs)
  match parseIntPart cs1 with
  | none => none
  | some (ip, cs2) =>
    match parseFracPart cs2 with
    | none => none
    | some (fp, cs3) =>
      match parseExpPart cs3 with
      | none => none
      | some (ep, cs4) => some (sgn ++ ip ++ fp ++ ep, cs4)

/-- Match the tail of a keyword literal. -/
def litRest : List Char → List Char → Option (List Char)
  | [], cs => some cs
  | _ :: _, [] => none
  | l :: ls, c :: cs => if c = l then litRest ls cs else none

mutual

/-- JSON value parser (fuel-based recursive descent, modelling `JSON.parse`). -/
def parseValueF : Nat → List Char → Option (Json × List Char)
  | 0, _ => none
  | f + 1, cs =>
    match skipWs cs with
    | [] => none
    | c :: r =>
      if c = '"' then
        match parseStringBody (r.length + 1) r with
        | some (sc, rest) => some (Json.str (String.mk sc), rest)
        | none => none
      else if c = 't' then
        match litRest ['r', 'u', 'e'] r with
        | some rest => some (Json.bool true, rest)
        | none => none
      else if c = 'f' then
        match litRest ['a', 'l', 's', 'e'] r with
        | some rest => some (Json.bool false, rest)
        | none => none
      else if c = 'n' then
        match litRest ['u', 'l', 'l'] r with
        | some rest => some (Json.null, rest)
        | none => none
      else if c = '[' then
        match skipWs r with
        | ']' :: rest => some (Json.arr [], rest)
        | _ =>
          match parseItemsF f r with
          | some (vs, rest) => some (Json.arr vs, rest)
          | none => none
      else if c = '\x7b' then
        match skipWs r with
        | '\x7d' :: rest => some (Json.obj [], rest)
        | _ =>
          match parseFieldsF f r with
          | some (fs, rest) => some (Json.obj fs, rest)
          | none => none
      else
        match parseNumberLex (c :: r) with
        | some (lex, rest) => some (Json.num (String.mk lex), rest)
        | none => none

/-- Comma-separated array items up to the closing bracket. -/
def parseItemsF : Nat → List Char → Option (List Json × List Char)
  | 0, _ => none
  | f + 1, cs =>
    match parseValueF f cs with
    | none => none
    | some (v, rest) =>
      match skipWs rest with
      | ',' :: r2 =>
        match parseItemsF f r2 with
        | some (vs, rest2) => some (v :: vs, rest2)
        | none => none
      | ']' :: r2 => some ([v], r2)
      | _ => none

/-- Comma-separated object members up to the closing brace. -/
def parseFieldsF : Nat → List Char → Option (List (String × Json) × List Char)
  | 0, _ => none
  | f + 1, cs =>
    match skipWs cs with
    | '"' :: r =>
      match parseStringBody (r.length + 1) r with
      | none => none
      | some (key, rest) =>
        match skipWs rest with
        | ':' :: r2 =>
          match parseValueF f r2 with
          | none => none
          | some (v, rest2) =>
            match skipWs rest2 with
            | ',' :: r3 =>
              match parseFieldsF f r3 with
              | some (fs, rest3) => some ((String.mk key, v) :: fs, rest3)
              | none => none
            | '\x7d' :: r3 => some ([(String.mk key, v)], r3)
            | _ => none
        | _ => none
    | _ => none

end

/-- `JSON.parse`: parse a whole string as one JSON value (with leading and
trailing whitespace), failing on trailing garbage.  The fuel bound is
generous: each level of the recursion consumes input. -/
def Json.parse (s : String) : Option Json :=
  match parseValueF (4 * s.length + 8) s.toList with
  | some (v, rest) => if (skipWs rest).isEmpty then some v else none
  | none => none

/-! ## JavaScript object semantics used by `extractTextFromPiOutput` -/

/-- Last binding of a key in an object's field list: in a JS object built
by `JSON.parse`, a duplicated key keeps its last value. -/
def lookupLast (fields : List (String × Json)) (key : String) : Option Json :=
  match fields with
  | [] => none
  | (k, v) :: rest =>
    match lookupLast rest key with
    | some r => some r
    | none => if k == key then some v else none

/-- JS property access `j.key`.  Accessing a property of `null` throws a
TypeError (`Except.error`); on any non-object it yields `undefined`
(`none`).  The keys used by the source ("messages", "role", "content",
"type", "text") never collide with built-in properties of primitives. -/
def getMember (j : Json) (key : String) : Except Unit (Option Json) :=
  match j with
  | Json.null => Except.error ()
  | Json.obj fields => Except.ok (lookupLast fields key)
  | _ => Except.ok none

/-- Is this value (the result of `m.role`) strictly equal to the string
literal "assistant"? -/
def isAssistantRole : Option Json → Bool
  | some (Json.str s) => s == "assistant"
  | _ => false

/-- Is this value (the result of `c.type`) strictly equal to "text"? -/
def isTextType : Option Json → Bool
  | some (Json.str s) => s == "text"
  | _ => false

/-- All mantissa digits of a number lexeme are zero (the number's value
is 0, hence falsy in JS). -/
def numIsZero (lex : String) : Bool :=
  ((lex.toList.takeWhile (fun c => !(c == 'e' || c == 'E'))).filter Char.isDigit).all
    (fun c => c == '0')

/-- JS truthiness of a JSON value. -/
def truthy : Json → Bool
  | Json.null => false
  | Json.bool b => b
  | Json.str s => !s.isEmpty
  | Json.num lex => !numIsZero lex
  | Json.arr _ => true
  | Json.obj _ => true

mutual

/-- JS string conversion as performed by `Array.prototype.join` on a
non-null element.  Number conversion is approximated by the stored
lexeme (exact JS float formatting is out of scope; the verified code
only ever joins strings). -/
def jsToString : Json → String
  | Json.null => "null"
  | Json.bool b => if b then "true" else "false"
  | Json.num lex => lex
  | Json.str s => s
  | Json.arr xs => String.intercalate ("," ) (jsToStringList xs)
  | Json.obj _ => "[object Object]"

/-- Element-wise conversion inside an array: null becomes the empty string. -/
def jsToStringList : List Json → List String
  | [] => []
  | Json.null :: r => ("") :: jsToStringList r
  | v :: r => jsToString v :: jsToStringList r

end

/-- `findLast` scan: walk the reversed message list and return the first
element whose `role` property is "assistant"; property access on a null
element throws. -/
def findFirstAssistant : List Json → Except Unit (Option Json)
  | [] => Except.ok none
  | m :: rest =>
    match getMember m ("role") with
    | Except.error _ => Except.error ()
    | Except.ok r =>
      if isAssistantRole r then Except.ok (some m) else findFirstAssistant rest

/-- `json.messages.findLast((m) => m.role === "assistant")`. -/
def findLastAssistant (ms : List Json) : Except Unit (Option Json) :=
  findFirstAssistant ms.reverse

/-- `content.filter((c) => c.type === "text")`, throwing on null elements. -/
def filterTextBlocks : List Json → Except Unit (List Json)
  | [] => Except.ok []
  | b :: rest =>
    match getMember b ("type") with
    | Except.error _ => Except.error ()
    | Except.ok t =>
      match filterTextBlocks rest with
      | Except.error _ => Except.error ()
      | Except.ok kept => Except.ok (if isTextType t then b :: kept else kept)

/-- One element of `.map((c) => c.text ?? "")` followed by `join`'s
string conversion: an absent or null `text` contributes the empty string. -/
def blockText (b : Json) : Except Unit String :=
  match getMember b ("text") with
  | Except.error _ => Except.error ()
  | Except.ok none => Except.ok ("")
  | Except.ok (some Json.null) => Except.ok ("")
  | Except.ok (some v) => Except.ok (jsToString v)

/-- `.map((c) => c.text ?? "")` over the kept blocks. -/
def mapBlockTexts : List Json → Except Unit (List String)
  | [] => Except.ok []
  | b :: rest =>
    match blockText b with
    | Except.error _ => Except.error ()
    | Except.ok t =>
      match mapBlockTexts rest with
      | Except.error _ => Except.error ()
      | Except.ok ts => Except.ok (t :: ts)

/-- Body of the `try` block of `extractTextFromPiOutput` after a
successful `JSON.parse`: `Except.error` is a thrown (and caught)
TypeError, `Except.ok none` means control falls through to
`return output`, `Except.ok (some s)` is an early `return s`. -/
def extractCore (j : Json) : Except Unit (Option String) :=
  match getMember j ("messages") with
  | Except.error _ => Except.error ()
  | Except.ok mv =>
    match mv with
    | some (Json.arr ms) =>
      match findLastAssistant ms with
      | Except.error _ => Except.error ()
      | Except.ok none => Except.ok none
      | Except.ok (some am) =>
        match getMember am ("content") with
        | Except.error _ => Except.error ()
        | Except.ok none => Except.ok none
        | Except.ok (some c) =>
          if truthy c then
            match c with
            | Json.arr blocks =>
              match filterTextBlocks blocks with
              | Except.error _ => Except.error ()
              | Except.ok kept =>
                match mapBlockTexts kept with
                | Except.error _ => Except.error ()
                | Except.ok texts => Except.ok (some (String.intercalate ("\n") texts))
            | _ => Except.error ()
          else Except.ok none
    | _ => Except.ok none

/-- `extractTextFromPiOutput` from `src/utils.ts`: try to parse the
output as pi's JSON transcript and extract the last assistant message's
text blocks; on parse failure, thrown TypeError, or any shape mismatch,
return the raw output unchanged. -/
def extractTextFromPiOutput (output : String) : String :=
  match Json.parse output with
  | none => output
  | some j =>
    match extractCore j with
    | Except.error _ => output
    | Except.ok none => output
    | Except.ok (some s) => s

/-! ## Classifier (`isImageFile`, `needsVisionProxy`) -/

/-- `SUPPORTED_IMAGE_EXTENSIONS` from `src/utils.ts`. -/
def SUPPORTED_IMAGE_EXTENSIONS : List String := ["jpg", "jpeg", "png", "gif", "webp"]

/-- `NON_VISION_MODELS` from `src/utils.ts`. -/
def NON_VISION_MODELS : List String := ["glm-4.6", "glm-4.7", "glm-4.7-flash"]

/-- `VISION_MODEL` from `src/utils.ts`. -/
def VISION_MODEL : String := "glm-4.6v"

/-- `VISION_PROVIDER` from `src/utils.ts`. -/
def VISION_PROVIDER : String := "zai"

/-- JS `path.split(".")`: split a character list at every '.', keeping
empty segments; the empty input gives one empty segment. -/
def splitOnDot : List Char → List (List Char)
  | [] => [[]]
  | c :: rest =>
    if c = '.' then [] :: splitOnDot rest
    else
      match splitOnDot rest with
      | [] => [[c]]
      | g :: gs => (c :: g) :: gs

/-- JS `String.prototype.toLowerCase`, modelled character-wise (ASCII
case folding; no Unicode mapping can turn a non-matching extension into
one of the five ASCII extension names). -/
def toLowerStr (s : String) : String :=
  String.mk (s.toList.map Char.toLower)

/-- `isImageFile` from `src/utils.ts`:
`path.split(".").pop()?.toLowerCase()` is the last '.'-separated
segment, lower-cased (`pop` on a split result is never undefined);
membership is tested in `SUPPORTED_IMAGE_EXTENSIONS`. -/
def isImageFile (path : String) : Bool :=
  match (splitOnDot path.toList).getLast? with
  | some ext => SUPPORTED_IMAGE_EXTENSIONS.contains (toLowerStr (String.mk ext))
  | none => false

/-- `needsVisionProxy` from `src/utils.ts`:
`modelId !== undefined && NON_VISION_MODELS.includes(modelId)`. -/
def needsVisionProxy : Option String → Bool
  | none => false
  | some m => NON_VISION_MODELS.contains m

/-! ## Typed transcript records (the `PiJsonOutput` interfaces) and their
JSON encoding, used to state claims about well-shaped transcripts -/

/-- `PiContentBlock` from `src/utils.ts`: a content segment with a kind
tag and an optional text payload. -/
structure PiContentBlock where
  type : String
  text : Option String

/-- `PiMessage` from `src/utils.ts`: a turn with a role and an optional
segment list. -/
structure PiMessage where
  role : String
  content : Option (List PiContentBlock)

/-- JSON encoding of a content block; an absent text payload omits the
"text" member. -/
def encodeBlock (c : PiContentBlock) : Json :=
  match c.text with
  | some t => Json.obj [("type", Json.str c.type), ("text", Json.str t)]
  | none => Json.obj [("type", Json.str c.type)]

/-- JSON encoding of a message; an absent content list omits the
"content" member. -/
def encodeMessage (m : PiMessage) : Json :=
  match m.content with
  | some cs => Json.obj [("role", Json.str m.role), ("content", Json.arr (cs.map encodeBlock))]
  | none => Json.obj [("role", Json.str m.role)]

/-- JSON encoding of a whole transcript (`PiJsonOutput` with a present
`messages` array). -/
def encodePiOutput (ms : List PiMessage) : Json :=
  Json.obj [("messages", Json.arr (ms.map encodeMessage))]

/-- Last turn whose role is "assistant" (typed counterpart of `findLast`). -/
def lastAssistant (ms : List PiMessage) : Option PiMessage :=
  ms.reverse.find? (fun m => m.role == "assistant")

/-! ## The overriding read tool (`execute` in `src/index.ts`) -/

/-- Result of a tool execution: the single text content entry built by
`execute` (or by the wrapped read tool). -/
structure ToolResult where
  text : String

/-- The success value built at `src/index.ts:185-188`. -/
def mkAnalyzedResult (summaryText : String) : ToolResult :=
  { text := "[Image analyzed with " ++ VISION_MODEL ++ "]\n\n" ++ summaryText }

/-- The `execute` override from `src/index.ts:163-195` as a function of
its decision inputs: `localRead` is the wrapped original read
capability applied to the unchanged argument bundle `args`;
`analysisOutcome` is the settled result of `await analyzeImage(...)`;
`abortedAfterResolve` is the value of `signal?.aborted` re-checked
after a successful await.  Any error thrown inside the `try` block is
wrapped as "Image analysis failed: ...". -/
def executeRead {α : Type} (localRead : α → Except String ToolResult)
    (modelId : Option String) (absolutePath : String) (args : α)
    (analysisOutcome : Except String String) (abortedAfterResolve : Bool) :
    Except String ToolResult :=
  if !needsVisionProxy modelId || !isImageFile absolutePath then localRead args
  else
    match analysisOutcome with
    | Except.error msg => Except.error ("Image analysis failed: " ++ msg)
    | Except.ok summaryText =>
      if abortedAfterResolve then
        Except.error ("Image analysis failed: " ++ "Operation aborted")
      else Except.ok (mkAnalyzedResult summaryText)

/-! ## The `analyzeImage` subprocess lifecycle (`src/index.ts:101-155`)
modelled as a step function over an event trace -/

/-- `${code}` interpolation of a `number | null` exit code. -/
def jsNumOrNullToString : Option Int → String
  | none => "null"
  | some n => toString n

/-- JS `String.prototype.trim`, modelled character-wise: drop leading
and trailing whitespace. -/
def jsTrim (s : String) : String :=
  String.mk (((s.toList.dropWhile Char.isWhitespace).reverse.dropWhile Char.isWhitespace).reverse)

/-- The `close` handler at `src/index.ts:136-142`: nonzero or null exit
code rejects with the stderr text; exit code 0 resolves with the
extracted, trimmed stdout. -/
def onCloseResult (code : Option Int) (stdout stderr : String) : Except String String :=
  if code ≠ some 0 then
    Except.error ("pi subprocess failed (" ++ jsNumOrNullToString code ++ "): " ++ stderr)
  else Except.ok (extractTextFromPiOutput (jsTrim stdout))

/-- External events delivered to one `analyzeImage` invocation:
stdout/stderr data chunks, the spawn `error` event, the `close` event,
and the abort signal firing. -/
inductive PEvent where
  | stdoutData : String → PEvent
  | stderrData : String → PEvent
  | spawnError : String → PEvent
  | close : Option Int → PEvent
  | abort : PEvent

/-- State of one `analyzeImage` invocation: the two stream buffers, the
promise's settled value (first settlement wins), whether the abort
listener is still registered, and whether `child.kill()` was called. -/
structure PState where
  stdoutBuf : String
  stderrBuf : String
  settled : Option (Except String String)
  listenerActive : Bool
  killed : Bool

/-- State before any event: empty buffers, pending promise, the abort
listener registered exactly when a signal was supplied. -/
def initialState (hasSignal : Bool) : PState :=
  { stdoutBuf := "", stderrBuf := "", settled := none, listenerActive := hasSignal,
    killed := false }

/-- Settle the promise: `resolve`/`reject` are no-ops once settled. -/
def settle (st : PState) (r : Except String String) : PState :=
  match st.settled with
  | some _ => st
  | none => { st with settled := some r }

/-- One event:
data events append to a buffer; the spawn `error` handler rejects; the
`close` event runs the close handler and then the second `close`
listener removes the abort listener; the abort signal, if the listener
is still registered, kills the child, rejects with "Operation aborted",
and (being registered with `once: true`) deregisters itself. -/
def stepEvent (st : PState) (e : PEvent) : PState :=
  match e with
  | PEvent.stdoutData s => { st with stdoutBuf := st.stdoutBuf ++ s }
  | PEvent.stderrData s => { st with stderrBuf := st.stderrBuf ++ s }
  | PEvent.spawnError msg => settle st (Except.error msg)
  | PEvent.close code =>
    { settle st (onCloseResult code st.stdoutBuf st.stderrBuf) with listenerActive := false }
  | PEvent.abort =>
    if st.listenerActive then
      { settle st (Except.error "Operation aborted") with killed := true, listenerActive := false }
    else st

/-- Run one invocation over an event trace. -/
def runEvents (hasSignal : Bool) (es : List PEvent) : PState :=
  es.foldl stepEvent (initialState hasSignal)

/-- Concatenation of the stdout chunks of a trace. -/
def stdoutOf : List PEvent → String
  | [] => ""
  | PEvent.stdoutData s :: r => s ++ stdoutOf r
  | _ :: r => stdoutOf r

/-- Concatenation of the stderr chunks of a trace. -/
def stderrOf : List PEvent → String
  | [] => ""
  | PEvent.stderrData s :: r => s ++ stderrOf r
  | _ :: r => stderrOf r

/-- Stream-data events (the only events before process termination or
cancellation). -/
def isDataEvent : PEvent → Bool
  | PEvent.stdoutData _ => true
  | PEvent.stderrData _ => true
  | _ => false

/-! ## Helper lemmas about `splitOnDot` -/

theorem splitOnDot_ne_nil (cs : List Char) : splitOnDot cs ≠ [] := by
  cases cs with
  | nil => simp [splitOnDot]
  | cons c rest =>
    simp only [splitOnDot]
    split
    · simp
    · split <;> simp

theorem splitOnDot_no_dot (cs : List Char) (h : '.' ∉ cs) : splitOnDot cs = [cs] := by
  induction cs with
  | nil => rfl
  | cons c rest ih =>
    have hc : ¬ c = '.' := fun hc => h (hc ▸ List.mem_cons_self c rest)
    have hr : '.' ∉ rest := fun hr => h (List.mem_cons_of_mem c hr)
    simp only [splitOnDot, if_neg hc, ih hr]

theorem getLast?_cons_of_ne_nil {α : Type} (a : α) (l : List α) (h : l ≠ []) :
    (a :: l).getLast? = l.getLast? := by
  cases l with
  | nil => exact absurd rfl h
  | cons b bs => exact List.getLast?_cons_cons

theorem splitOnDot_length_two (xs ys : List Char) :
    2 ≤ (splitOnDot (xs ++ '.' :: ys)).length := by
  induction xs with
  | nil =>
    rw [List.nil_append, show splitOnDot ('.' :: ys) = [] :: splitOnDot ys from rfl,
      List.length_cons]
    have h : 0 < (splitOnDot ys).length := List.length_pos.mpr (splitOnDot_ne_nil ys)
    omega
  | cons x xs ih =>
    rw [List.cons_append]
    by_cases hx : x = '.'
    · subst hx
      rw [show splitOnDot ('.' :: (xs ++ '.' :: ys)) = [] :: splitOnDot (xs ++ '.' :: ys)
          from rfl, List.length_cons]
      omega
    · have he : splitOnDot (x :: (xs ++ '.' :: ys))
          = match splitOnDot (xs ++ '.' :: ys) with
            | [] => [[x]]
            | g :: gs => (x :: g) :: gs := by
        simp [splitOnDot, hx]
      rw [he]
      cases hs : splitOnDot (xs ++ '.' :: ys) with
      | nil => exact absurd hs (splitOnDot_ne_nil _)
      | cons g gs =>
        rw [hs] at ih
        show 2 ≤ ((x :: g) :: gs).length
        simp only [List.length_cons] at ih ⊢
        omega

theorem splitOnDot_getLast?_dot (xs ys : List Char) :
    (splitOnDot (xs ++ '.' :: ys)).getLast? = (splitOnDot ys).getLast? := by
  induction xs with
  | nil =>
    rw [List.nil_append, show splitOnDot ('.' :: ys) = [] :: splitOnDot ys from rfl]
    exact getLast?_cons_of_ne_nil _ _ (splitOnDot_ne_nil ys)
  | cons x xs ih =>
    rw [List.cons_append]
    by_cases hx : x = '.'
    · subst hx
      rw [show splitOnDot ('.' :: (xs ++ '.' :: ys)) = [] :: splitOnDot (xs ++ '.' :: ys)
          from rfl]
      rw [getLast?_cons_of_ne_nil _ _ (splitOnDot_ne_nil _)]
      exact ih
    · have he : splitOnDot (x :: (xs ++ '.' :: ys))
          = match splitOnDot (xs ++ '.' :: ys) with
            | [] => [[x]]
            | g :: gs => (x :: g) :: gs := by
        simp [splitOnDot, hx]
      rw [he]
      cases hs : splitOnDot (xs ++ '.' :: ys) with
      | nil => exact absurd hs (splitOnDot_ne_nil _)
      | cons g gs =>
        have hlen := splitOnDot_length_two xs ys
        rw [hs] at hlen
        cases gs with
        | nil => simp at hlen
        | cons g2 gs2 =>
          rw [hs] at ih
          show ((x :: g) :: g2 :: gs2).getLast? = (splitOnDot ys).getLast?
          rw [List.getLast?_cons_cons]
          rw [List.getLast?_cons_cons] at ih
          exact ih

/-! ## Claim C1 -/

/-- C1 counterexample: the claim states that a path containing no "."
always yields false, but `isImageFile "png"` is true although "png"
contains no dot (the JS `split(".").pop()` returns the whole string). -/
theorem c1_counterexample : isImageFile "png" = true ∧ ¬ ('.' ∈ "png".toList) := by
  constructor
  · rfl
  · decide

/-- C1 (amended): `isImageFile p` is true iff the last '.'-separated
segment of p, lower-cased, is one of jpg/jpeg/png/gif/webp.  When p
contains a dot that segment is exactly the substring after the last
".", as the claim states; the empty string yields false; but for a
dot-free p the tested segment is the whole string, so such a path is
accepted exactly when the entire path lower-cases to one of the five
extension names (rather than always being rejected). -/
theorem c1_isImageFile_amended :
    (∀ pre ext : List Char, '.' ∉ ext →
      (isImageFile (String.mk (pre ++ '.' :: ext)) = true ↔
        toLowerStr (String.mk ext) ∈ SUPPORTED_IMAGE_EXTENSIONS)) ∧
    (∀ cs : List Char, '.' ∉ cs →
      (isImageFile (String.mk cs) = true ↔
        toLowerStr (String.mk cs) ∈ SUPPORTED_IMAGE_EXTENSIONS)) ∧
    isImageFile "" = false := by
  refine ⟨?_, ?_, rfl⟩
  · intro pre ext hext
    have hsplit : (splitOnDot (String.mk (pre ++ '.' :: ext)).toList).getLast? = some ext := by
      show (splitOnDot (pre ++ '.' :: ext)).getLast? = some ext
      rw [splitOnDot_getLast?_dot, splitOnDot_no_dot ext hext]
      rfl
    simp only [isImageFile, hsplit]
    exact List.elem_iff
  · intro cs hcs
    have hsplit : (splitOnDot (String.mk cs).toList).getLast? = some cs := by
      show (splitOnDot cs).getLast? = some cs
      rw [splitOnDot_no_dot cs hcs]
      rfl
    simp only [isImageFile, hsplit]
    exact List.elem_iff

/-- C1 witness: the amended theorem applied at concrete inputs — a
mixed-case supported extension after a dot, and a dot-free file name
that is not itself an extension name. -/
theorem c1_witness : isImageFile "photo.JpG" = true ∧ isImageFile "Makefile" = false := by
  constructor
  · exact (c1_isImageFile_amended.1 ("photo".toList) ("JpG".toList) (by decide)).mpr (by decide)
  · cases hb : isImageFile "Makefile" with
    | false => rfl
    | true =>
      exact absurd ((c1_isImageFile_amended.2.1 ("Makefile".toList) (by decide)).mp hb)
        (by decide)

/-! ## Claim C7 -/

/-- C7: `needsVisionProxy m` is true iff m is present and is one of the
three non-vision GLM model identifiers; an absent model id yields
false. -/
theorem c7_needsVisionProxy_spec :
    (∀ m : String, needsVisionProxy (some m) = true ↔
      (m = "glm-4.6" ∨ m = "glm-4.7" ∨ m = "glm-4.7-flash")) ∧
    needsVisionProxy none = false := by
  refine ⟨?_, rfl⟩
  intro m
  show NON_VISION_MODELS.contains m = true ↔ _
  rw [show (NON_VISION_MODELS.contains m = true) ↔ m ∈ NON_VISION_MODELS from List.elem_iff]
  simp [NON_VISION_MODELS]

/-- C7 witness: the specification applied at a proxied and a
pass-through model identifier. -/
theorem c7_witness :
    needsVisionProxy (some "glm-4.7") = true ∧ needsVisionProxy (some "gpt-4o") = false := by
  constructor
  · exact (c7_needsVisionProxy_spec.1 "glm-4.7").mpr (Or.inr (Or.inl rfl))
  · cases hb : needsVisionProxy (some "gpt-4o") with
    | false => rfl
    | true => exact absurd ((c7_needsVisionProxy_spec.1 "gpt-4o").mp hb) (by decide)

/-! ## Claims C9 and C3 (the `execute` override) -/

/-- C9: when the model does not require vision proxying or the resolved
path is not a supported image, the overriding read tool returns exactly
what the wrapped original read capability returns on the unchanged
argument bundle — the pass-through case is a transparent decorator. -/
theorem c9_passthrough {α : Type} (localRead : α → Except String ToolResult)
    (modelId : Option String) (absolutePath : String) (args : α)
    (analysisOutcome : Except String String) (abortedAfterResolve : Bool)
    (h : needsVisionProxy modelId = false ∨ isImageFile absolutePath = false) :
    executeRead localRead modelId absolutePath args analysisOutcome abortedAfterResolve
      = localRead args := by
  unfold executeRead
  rcases h with h | h <;> simp [h]

/-- C9 witness: the pass-through theorem applied with a concrete wrapped
reader, a non-proxied model and an image path. -/
theorem c9_witness :
    executeRead (fun s : String => Except.ok (ToolResult.mk s)) (some "gpt-4o") "/tmp/a.png"
      "original read output" (Except.ok "analysis") false
      = Except.ok (ToolResult.mk "original read output") :=
  c9_passthrough (fun s : String => Except.ok (ToolResult.mk s)) (some "gpt-4o") "/tmp/a.png"
    "original read output" (Except.ok "analysis") false (Or.inl (by decide))

/-- C3: if cancellation was signaled by the time the caller re-checks
`signal?.aborted` after `analyzeImage` resolved successfully, the tool
invocation fails with the wrapped operation-aborted error and never
returns the stale analysis text. -/
theorem c3_cancel_after_success {α : Type} (localRead : α → Except String ToolResult)
    (modelId : Option String) (absolutePath : String) (args : α) (summaryText : String)
    (hm : needsVisionProxy modelId = true) (hp : isImageFile absolutePath = true) :
    executeRead localRead modelId absolutePath args (Except.ok summaryText) true
      = Except.error ("Image analysis failed: " ++ "Operation aborted") ∧
    ∀ r : ToolResult,
      executeRead localRead modelId absolutePath args (Except.ok summaryText) true
        ≠ Except.ok r := by
  unfold executeRead
  simp [hm, hp]

/-- C3 witness: the cancellation-race theorem applied at a proxied model
and image path with a concrete stale success value. -/
theorem c3_witness :
    executeRead (fun s : String => Except.ok (ToolResult.mk s)) (some "glm-4.7")
      "/tmp/shot.png" "params" (Except.ok "stale analysis") true
      = Except.error ("Image analysis failed: " ++ "Operation aborted") :=
  (c3_cancel_after_success (fun s : String => Except.ok (ToolResult.mk s)) (some "glm-4.7")
    "/tmp/shot.png" "params" "stale analysis" (by decide) (by decide)).1


/-! ## Invariants of the `analyzeImage` event state machine -/

theorem settle_settled_some (st : PState) (r v : Except String String)
    (h : st.settled = some v) : (settle st r).settled = some v := by
  simp only [settle, h]

theorem settle_killed (st : PState) (r : Except String String) :
    (settle st r).killed = st.killed := by
  unfold settle
  cases st.settled <;> rfl

theorem settle_listener (st : PState) (r : Except String String) :
    (settle st r).listenerActive = st.listenerActive := by
  unfold settle
  cases st.settled <;> rfl

theorem stepEvent_settled_mono (st : PState) (e : PEvent) (v : Except String String)
    (h : st.settled = some v) : (stepEvent st e).settled = some v := by
  cases e with
  | stdoutData s => exact h
  | stderrData s => exact h
  | spawnError m => exact settle_settled_some st _ v h
  | close c => exact settle_settled_some st _ v h
  | abort =>
    simp only [stepEvent]
    split
    · exact settle_settled_some st _ v h
    · exact h

theorem foldl_settled_mono (es : List PEvent) (st : PState) (v : Except String String)
    (h : st.settled = some v) : (es.foldl stepEvent st).settled = some v := by
  induction es generalizing st with
  | nil => exact h
  | cons e rest ih => exact ih (stepEvent st e) (stepEvent_settled_mono st e v h)

theorem stepEvent_killed_mono (st : PState) (e : PEvent) (h : st.killed = true) :
    (stepEvent st e).killed = true := by
  cases e with
  | stdoutData s => exact h
  | stderrData s => exact h
  | spawnError m => simpa [stepEvent, settle_killed] using h
  | close c => simpa [stepEvent, settle_killed] using h
  | abort =>
    simp only [stepEvent]
    split
    · rfl
    · exact h

theorem foldl_killed_mono (es : List PEvent) (st : PState) (h : st.killed = true) :
    (es.foldl stepEvent st).killed = true := by
  induction es generalizing st with
  | nil => exact h
  | cons e rest ih => exact ih (stepEvent st e) (stepEvent_killed_mono st e h)

theorem stepEvent_listener_off (st : PState) (e : PEvent) (h : st.listenerActive = false) :
    (stepEvent st e).listenerActive = false := by
  cases e with
  | stdoutData s => exact h
  | stderrData s => exact h
  | spawnError m => simpa [stepEvent, settle_listener] using h
  | close c => rfl
  | abort =>
    simp only [stepEvent]
    split
    · next hl => simp [h] at hl
    · exact h

theorem foldl_listener_off (es : List PEvent) (st : PState) (h : st.listenerActive = false) :
    (es.foldl stepEvent st).listenerActive = false := by
  induction es generalizing st with
  | nil => exact h
  | cons e rest ih => exact ih (stepEvent st e) (stepEvent_listener_off st e h)

theorem foldl_data (chunks : List PEvent) (st : PState)
    (h : ∀ e ∈ chunks, isDataEvent e = true) :
    chunks.foldl stepEvent st
      = PState.mk (st.stdoutBuf ++ stdoutOf chunks) (st.stderrBuf ++ stderrOf chunks)
          st.settled st.listenerActive st.killed := by
  induction chunks generalizing st with
  | nil => simp [stdoutOf, stderrOf, String.append_empty]
  | cons e rest ih =>
    have hrest : ∀ x ∈ rest, isDataEvent x = true :=
      fun x hx => h x (List.mem_cons_of_mem _ hx)
    cases e with
    | stdoutData s =>
      rw [List.foldl_cons, ih _ hrest]
      simp [stepEvent, stdoutOf, stderrOf, String.append_assoc]
    | stderrData s =>
      rw [List.foldl_cons, ih _ hrest]
      simp [stepEvent, stdoutOf, stderrOf, String.append_assoc]
    | spawnError m => exact absurd (h _ (List.mem_cons_self _ _)) (by simp [isDataEvent])
    | close c => exact absurd (h _ (List.mem_cons_self _ _)) (by simp [isDataEvent])
    | abort => exact absurd (h _ (List.mem_cons_self _ _)) (by simp [isDataEvent])

/-! ## Claim C2 -/

/-- C2: after the output streams have been accumulated, the `close`
event with exit code 0 resolves the `analyzeImage` promise with
`extractTextFromPiOutput` applied to the trimmed accumulated stdout,
and any other exit code (nonzero or null) rejects it with an error
carrying that exit code and the accumulated stderr text. -/
theorem c2_close_spec (hasSig : Bool) (chunks : List PEvent) (code : Option Int)
    (h : ∀ e ∈ chunks, isDataEvent e = true) :
    (code = some 0 →
      (runEvents hasSig (chunks ++ [PEvent.close code])).settled
        = some (Except.ok (extractTextFromPiOutput (jsTrim (stdoutOf chunks))))) ∧
    (code ≠ some 0 →
      (runEvents hasSig (chunks ++ [PEvent.close code])).settled
        = some (Except.error ("pi subprocess failed (" ++ jsNumOrNullToString code ++ "): "
            ++ stderrOf chunks))) := by
  have hrun : runEvents hasSig (chunks ++ [PEvent.close code])
      = stepEvent (chunks.foldl stepEvent (initialState hasSig)) (PEvent.close code) := by
    simp [runEvents, List.foldl_append]
  have hst := foldl_data chunks (initialState hasSig) h
  constructor
  · intro h0
    subst h0
    rw [hrun, hst]
    simp [stepEvent, settle, onCloseResult, initialState, String.empty_append]
  · intro hne
    rw [hrun, hst]
    simp [stepEvent, settle, onCloseResult, initialState, String.empty_append, hne]

/-- C2 witness: the close-handler theorem applied to a concrete trace
with a success run (plain-text stdout passes through extraction) and a
failing run with exit code 1. -/
theorem c2_witness :
    (runEvents true [PEvent.stdoutData ("plain"), PEvent.close (some 0)]).settled
      = some (Except.ok ("plain")) ∧
    (runEvents true [PEvent.stderrData ("boom"), PEvent.close (some 1)]).settled
      = some (Except.error ("pi subprocess failed (1): boom")) := by
  constructor
  · have h := (c2_close_spec true [PEvent.stdoutData ("plain")] (some 0)
      (by intro e he; rw [List.mem_singleton] at he; subst he; rfl)).1 rfl
    simp only [List.cons_append, List.nil_append] at h
    rw [h]
    rfl
  · have h := (c2_close_spec true [PEvent.stderrData ("boom")] (some 1)
      (by intro e he; rw [List.mem_singleton] at he; subst he; rfl)).2 (by simp)
    simp only [List.cons_append, List.nil_append] at h
    rw [h]
    rfl

/-! ## Claim C8 -/

/-- C8 counterexample: the claim states that on every termination path
(including a launch error) the cancellation listener is deregistered, so
the abort callback can never fire after the promise has settled.  But
listener removal is attached only to the `close` event: after a spawn
`error` event the promise is settled while the listener is still
registered, and a subsequent abort still fires the callback (killing the
child) after settlement. -/
theorem c8_counterexample :
    (runEvents true [PEvent.spawnError ("spawn pi ENOENT")]).settled
      = some (Except.error ("spawn pi ENOENT")) ∧
    (runEvents true [PEvent.spawnError ("spawn pi ENOENT")]).listenerActive = true ∧
    (runEvents true [PEvent.spawnError ("spawn pi ENOENT"), PEvent.abort]).killed = true := by
  refine ⟨rfl, rfl, rfl⟩

/-- C8 (amended): with a cancellation signal supplied, an abort signaled
before any termination event kills the subprocess and rejects the
promise with "Operation aborted"; the listener is deregistered once a
`close` event occurs (normal or failed exit) and stays deregistered; but
on the launch-error path the rejection happens with the listener still
registered — deregistration only happens if and when a `close` event
follows — so a later abort still fires the callback (calling kill),
although it can no longer change the already-settled outcome. -/
theorem c8_abort_listener_amended :
    (∀ pre post : List PEvent, (∀ e ∈ pre, isDataEvent e = true) →
      (runEvents true (pre ++ PEvent.abort :: post)).killed = true ∧
      (runEvents true (pre ++ PEvent.abort :: post)).settled
        = some (Except.error ("Operation aborted"))) ∧
    (∀ (hasSig : Bool) (pre post : List PEvent) (code : Option Int),
      (runEvents hasSig (pre ++ PEvent.close code :: post)).listenerActive = false) ∧
    (∀ (msg : String) (post : List PEvent),
      (runEvents true (PEvent.spawnError msg :: PEvent.abort :: post)).killed = true ∧
      (runEvents true (PEvent.spawnError msg :: PEvent.abort :: post)).settled
        = some (Except.error msg)) := by
  refine ⟨?_, ?_, ?_⟩
  · intro pre post hdata
    have hst := foldl_data pre (initialState true) hdata
    have hrun : runEvents true (pre ++ PEvent.abort :: post)
        = post.foldl stepEvent
            (stepEvent (pre.foldl stepEvent (initialState true)) PEvent.abort) := by
      simp [runEvents, List.foldl_append]
    have habort : stepEvent (pre.foldl stepEvent (initialState true)) PEvent.abort
        = PState.mk (stdoutOf pre) (stderrOf pre)
            (some (Except.error ("Operation aborted"))) false true := by
      rw [hst]
      simp [stepEvent, settle, initialState, String.empty_append]
    rw [hrun, habort]
    exact ⟨foldl_killed_mono post _ rfl, foldl_settled_mono post _ _ rfl⟩
  · intro hasSig pre post code
    have hrun : runEvents hasSig (pre ++ PEvent.close code :: post)
        = post.foldl stepEvent
            (stepEvent (pre.foldl stepEvent (initialState hasSig)) (PEvent.close code)) := by
      simp [runEvents, List.foldl_append]
    rw [hrun]
    exact foldl_listener_off post _ rfl
  · intro msg post
    have hrun : runEvents true (PEvent.spawnError msg :: PEvent.abort :: post)
        = post.foldl stepEvent
            (stepEvent (stepEvent (initialState true) (PEvent.spawnError msg)) PEvent.abort) := by
      simp [runEvents]
    have hstep : stepEvent (stepEvent (initialState true) (PEvent.spawnError msg)) PEvent.abort
        = PState.mk ("") ("") (some (Except.error msg)) false true := by
      simp [stepEvent, settle, initialState]
    rw [hrun, hstep]
    exact ⟨foldl_killed_mono post _ rfl, foldl_settled_mono post _ _ rfl⟩

/-- C8 witness: the amended theorem applied to a concrete trace in which
the abort arrives after one stdout chunk. -/
theorem c8_witness :
    (runEvents true [PEvent.stdoutData ("x"), PEvent.abort]).killed = true ∧
    (runEvents true [PEvent.stdoutData ("x"), PEvent.abort]).settled
      = some (Except.error ("Operation aborted")) :=
  c8_abort_listener_amended.1 [PEvent.stdoutData ("x")] []
    (by intro e he; rw [List.mem_singleton] at he; subst he; rfl)

/-! ## Lemmas relating encoded transcripts to the JS-level extractor -/

theorem getMember_encodeMessage_role (m : PiMessage) :
    getMember (encodeMessage m) ("role") = Except.ok (some (Json.str m.role)) := by
  cases m with
  | mk r c => cases c <;> rfl

theorem getMember_encodeMessage_content (m : PiMessage) :
    getMember (encodeMessage m) ("content")
      = Except.ok (m.content.map (fun cs => Json.arr (cs.map encodeBlock))) := by
  cases m with
  | mk r c => cases c <;> rfl

theorem isAssistantRole_str (s : String) :
    isAssistantRole (some (Json.str s)) = (s == "assistant") := rfl

theorem findFirstAssistant_map (l : List PiMessage) :
    findFirstAssistant (l.map encodeMessage)
      = Except.ok ((l.find? (fun m => m.role == "assistant")).map encodeMessage) := by
  induction l with
  | nil => rfl
  | cons m rest ih =>
    rw [List.map_cons]
    cases hb : m.role == "assistant" with
    | false =>
      simp [findFirstAssistant, getMember_encodeMessage_role, isAssistantRole_str, hb,
        List.find?_cons, ih]
    | true =>
      simp [findFirstAssistant, getMember_encodeMessage_role, isAssistantRole_str, hb,
        List.find?_cons]

theorem findLastAssistant_encode (ms : List PiMessage) :
    findLastAssistant (ms.map encodeMessage)
      = Except.ok ((lastAssistant ms).map encodeMessage) := by
  unfold findLastAssistant lastAssistant
  rw [← List.map_reverse]
  exact findFirstAssistant_map ms.reverse

theorem getMember_encodeBlock_type (c : PiContentBlock) :
    getMember (encodeBlock c) ("type") = Except.ok (some (Json.str c.type)) := by
  cases c with
  | mk t tx => cases tx <;> rfl

theorem isTextType_str (s : String) :
    isTextType (some (Json.str s)) = (s == "text") := rfl

theorem filterTextBlocks_map (l : List PiContentBlock) :
    filterTextBlocks (l.map encodeBlock)
      = Except.ok ((l.filter (fun c => c.type == "text")).map encodeBlock) := by
  induction l with
  | nil => rfl
  | cons c rest ih =>
    rw [List.map_cons]
    cases hb : c.type == "text" with
    | false =>
      simp [filterTextBlocks, getMember_encodeBlock_type, isTextType_str, hb,
        List.filter_cons, ih]
    | true =>
      simp [filterTextBlocks, getMember_encodeBlock_type, isTextType_str, hb,
        List.filter_cons, ih]

theorem blockText_encodeBlock (c : PiContentBlock) :
    blockText (encodeBlock c) = Except.ok (c.text.getD ("")) := by
  cases c with
  | mk t tx => cases tx <;> rfl

theorem mapBlockTexts_map (l : List PiContentBlock) :
    mapBlockTexts (l.map encodeBlock)
      = Except.ok (l.map (fun c => c.text.getD (""))) := by
  induction l with
  | nil => rfl
  | cons c rest ih =>
    rw [List.map_cons]
    simp [mapBlockTexts, blockText_encodeBlock, ih]

theorem extractCore_encode (ms : List PiMessage) :
    extractCore (encodePiOutput ms)
      = match lastAssistant ms with
        | none => Except.ok none
        | some am =>
          match am.content with
          | none => Except.ok none
          | some cs => Except.ok (some (String.intercalate ("\n")
              ((cs.filter (fun c => c.type == "text")).map (fun c => c.text.getD (""))))) := by
  have hmsgs : getMember (encodePiOutput ms) ("messages")
      = Except.ok (some (Json.arr (ms.map encodeMessage))) := rfl
  simp only [extractCore, hmsgs, findLastAssistant_encode]
  cases hla : lastAssistant ms with
  | none => simp
  | some am =>
    simp only [Option.map_some']
    cases hc : am.content with
    | none => simp [getMember_encodeMessage_content, hc]
    | some cs =>
      simp [getMember_encodeMessage_content, hc, truthy, filterTextBlocks_map,
        mapBlockTexts_map]

/-! ## Claim C4 -/

/-- C4: `extractTextFromPiOutput` is total (no embedded failure path)
and returns its input unchanged whenever the input is not parseable
JSON, or the parsed object has no `messages` member, or `messages` is
the empty array, or no message has role "assistant"; in particular the
empty string and "not json" are returned unchanged. -/
theorem c4_extract_fallback :
    (∀ s : String, Json.parse s = none → extractTextFromPiOutput s = s) ∧
    (∀ (s : String) (fields : List (String × Json)),
      Json.parse s = some (Json.obj fields) →
      lookupLast fields ("messages") = none → extractTextFromPiOutput s = s) ∧
    (∀ (s : String) (fields : List (String × Json)),
      Json.parse s = some (Json.obj fields) →
      lookupLast fields ("messages") = some (Json.arr []) → extractTextFromPiOutput s = s) ∧
    (∀ (s : String) (ms : List PiMessage),
      Json.parse s = some (encodePiOutput ms) →
      (∀ m ∈ ms, m.role ≠ "assistant") → extractTextFromPiOutput s = s) ∧
    extractTextFromPiOutput ("") = ("") ∧
    extractTextFromPiOutput ("not json") = ("not json") := by
  refine ⟨?_, ?_, ?_, ?_, rfl, rfl⟩
  · intro s hp
    simp [extractTextFromPiOutput, hp]
  · intro s fields hp hm
    simp [extractTextFromPiOutput, hp, extractCore, getMember, hm]
  · intro s fields hp hm
    simp [extractTextFromPiOutput, hp, extractCore, getMember, hm, findLastAssistant,
      findFirstAssistant]
  · intro s ms hp hroles
    have hla : lastAssistant ms = none := by
      unfold lastAssistant
      rw [List.find?_eq_none]
      intro m hm
      have hne : m.role ≠ "assistant" := hroles m (List.mem_reverse.mp hm)
      simpa using hne
    have hcore := extractCore_encode ms
    simp only [hla] at hcore
    simp [extractTextFromPiOutput, hp, hcore]

/-- C4 witness: the fallback theorem applied to a parseable object with
no `messages` member. -/
theorem c4_witness :
    extractTextFromPiOutput ("\x7b\"a\": 1\x7d") = ("\x7b\"a\": 1\x7d") :=
  c4_extract_fallback.2.1 ("\x7b\"a\": 1\x7d") [("a", Json.num ("1"))] (by rfl) (by rfl)

/-! ## Claim C5 -/

/-- C5: on a well-formed transcript whose last assistant turn has a
content list, extraction keeps the segments of kind "text" in order,
maps each to its text payload (an absent payload becoming the empty
string rather than being dropped), and joins them with single
newlines. -/
theorem c5_extract_last_assistant (s : String) (ms : List PiMessage) (am : PiMessage)
    (cs : List PiContentBlock)
    (hparse : Json.parse s = some (encodePiOutput ms))
    (hlast : lastAssistant ms = some am)
    (hcontent : am.content = some cs) :
    extractTextFromPiOutput s = String.intercalate ("\n")
      ((cs.filter (fun c => c.type == "text")).map (fun c => c.text.getD (""))) := by
  have hcore := extractCore_encode ms
  simp only [hlast, hcontent] at hcore
  simp [extractTextFromPiOutput, hparse, hcore]

set_option maxRecDepth 16384

/-- C5 witness: the extraction theorem applied to a transcript whose
last assistant turn wins over an earlier one and whose content mixes
text and image segments (the image is dropped, the texts join with a
newline), and to a transcript whose first text segment has no payload
(contributing an empty line, not dropped). -/
theorem c5_witness :
    extractTextFromPiOutput ("\x7b\"messages\":[\x7b\"role\":\"assistant\",\"content\":[\x7b\"type\":\"text\",\"text\":\"first\"\x7d]\x7d,\x7b\"role\":\"user\",\"content\":[\x7b\"type\":\"text\",\"text\":\"mid\"\x7d]\x7d,\x7b\"role\":\"assistant\",\"content\":[\x7b\"type\":\"text\",\"text\":\"X\"\x7d,\x7b\"type\":\"image\"\x7d,\x7b\"type\":\"text\",\"text\":\"Y\"\x7d]\x7d]\x7d")
      = "X\nY" ∧
    extractTextFromPiOutput ("\x7b\"messages\":[\x7b\"role\":\"assistant\",\"content\":[\x7b\"type\":\"text\"\x7d,\x7b\"type\":\"text\",\"text\":\"Valid text\"\x7d]\x7d]\x7d")
      = "\nValid text" := by
  constructor
  · have h := c5_extract_last_assistant
      ("\x7b\"messages\":[\x7b\"role\":\"assistant\",\"content\":[\x7b\"type\":\"text\",\"text\":\"first\"\x7d]\x7d,\x7b\"role\":\"user\",\"content\":[\x7b\"type\":\"text\",\"text\":\"mid\"\x7d]\x7d,\x7b\"role\":\"assistant\",\"content\":[\x7b\"type\":\"text\",\"text\":\"X\"\x7d,\x7b\"type\":\"image\"\x7d,\x7b\"type\":\"text\",\"text\":\"Y\"\x7d]\x7d]\x7d")
      [PiMessage.mk "assistant" (some [PiContentBlock.mk "text" (some "first")]),
       PiMessage.mk "user" (some [PiContentBlock.mk "text" (some "mid")]),
       PiMessage.mk "assistant" (some [PiContentBlock.mk "text" (some "X"),
         PiContentBlock.mk "image" none, PiContentBlock.mk "text" (some "Y")])]
      (PiMessage.mk "assistant" (some [PiContentBlock.mk "text" (some "X"),
         PiContentBlock.mk "image" none, PiContentBlock.mk "text" (some "Y")]))
      [PiContentBlock.mk "text" (some "X"), PiContentBlock.mk "image" none,
       PiContentBlock.mk "text" (some "Y")]
      (by rfl) (by rfl) rfl
    exact h.trans (by rfl)
  · have h := c5_extract_last_assistant
      ("\x7b\"messages\":[\x7b\"role\":\"assistant\",\"content\":[\x7b\"type\":\"text\"\x7d,\x7b\"type\":\"text\",\"text\":\"Valid text\"\x7d]\x7d]\x7d")
      [PiMessage.mk "assistant" (some [PiContentBlock.mk "text" none,
         PiContentBlock.mk "text" (some "Valid text")])]
      (PiMessage.mk "assistant" (some [PiContentBlock.mk "text" none,
         PiContentBlock.mk "text" (some "Valid text")]))
      [PiContentBlock.mk "text" none, PiContentBlock.mk "text" (some "Valid text")]
      (by rfl) (by rfl) rfl
    exact h.trans (by rfl)

/-! ## Claim C6 -/

/-- C6: when the last assistant turn of a well-formed transcript has no
content list, the extractor returns the raw input string unchanged. -/
theorem c6_no_content (s : String) (ms : List PiMessage) (am : PiMessage)
    (hparse : Json.parse s = some (encodePiOutput ms))
    (hlast : lastAssistant ms = some am)
    (hc : am.content = none) :
    extractTextFromPiOutput s = s := by
  have hcore := extractCore_encode ms
  simp only [hlast, hc] at hcore
  simp [extractTextFromPiOutput, hparse, hcore]

/-- C6 witness: the theorem applied to a transcript whose only message
is an assistant turn without content. -/
theorem c6_witness :
    extractTextFromPiOutput ("\x7b\"messages\":[\x7b\"role\":\"assistant\"\x7d]\x7d")
      = ("\x7b\"messages\":[\x7b\"role\":\"assistant\"\x7d]\x7d") :=
  c6_no_content ("\x7b\"messages\":[\x7b\"role\":\"assistant\"\x7d]\x7d")
    [PiMessage.mk "assistant" none] (PiMessage.mk "assistant" none) (by rfl) (by rfl) rfl

/-! ## Claim C10 -/

/-- C10: `extractTextFromPiOutput` is idempotent on inputs that are not
valid JSON - such an input comes back unchanged, so a second
application returns the same string. -/
theorem c10_extract_idempotent (x : String) (h : Json.parse x = none) :
    extractTextFromPiOutput (extractTextFromPiOutput x) = extractTextFromPiOutput x := by
  have h1 : extractTextFromPiOutput x = x := by simp [extractTextFromPiOutput, h]
  rw [h1]
  exact h1

/-- C10 witness: the idempotence theorem applied to plain text. -/
theorem c10_witness :
    extractTextFromPiOutput (extractTextFromPiOutput ("plain text"))
      = extractTextFromPiOutput ("plain text") :=
  c10_extract_idempotent ("plain text") (by rfl)
